import Mathlib

/-!
Shallow embedding of the core of the steam-python client library:
byte-level codecs (`structs.py`), the packet codec (`packet.py`), the
encryption handshake (`handshake.py`), the server registry
(`cm_client/__init__.py`), the event emitter (`event_emitter.py`) and the
symmetric crypto layer (`crypto.py`).  Bytes are modelled as natural
numbers below 256 and byte strings as lists of naturals; code that can
raise a Python exception returns `Option`/a sum, with `none` standing for
an uncaught exception.
-/

namespace Steam

/-! ## Byte-level helpers -/

/-- Little-endian encoding of a `u32` (`struct.pack("<I", n)` for `n < 2^32`). -/
def le32enc (n : Nat) : List Nat :=
  [n % 256, n / 256 % 256, n / 65536 % 256, n / 16777216 % 256]

/-- Little-endian encoding of a `u64` (`struct.pack("<Q", n)` for `n < 2^64`). -/
def le64enc (n : Nat) : List Nat :=
  [n % 256, n / 256 % 256, n / 65536 % 256, n / 16777216 % 256,
   n / 4294967296 % 256, n / 1099511627776 % 256,
   n / 281474976710656 % 256, n / 72057594037927936 % 256]

/-- Little-endian decode of an entire byte list. -/
def leDec : List Nat → Nat
  | [] => 0
  | b :: bs => b + 256 * leDec bs

/-- `struct.unpack_from("<I", data)`: decode the first 4 bytes little-endian. -/
def u32at (data : List Nat) : Nat := leDec (data.take 4)

/-- `struct.unpack_from("<Q", data)`: decode the first 8 bytes little-endian. -/
def u64at (data : List Nat) : Nat := leDec (data.take 8)

theorem leDec_le32enc (n : Nat) : leDec (le32enc n) = n % 4294967296 := by
  simp only [le32enc, leDec]
  omega

theorem le32enc_length (n : Nat) : (le32enc n).length = 4 := rfl

theorem le64enc_length (n : Nat) : (le64enc n).length = 8 := rfl

theorem u32at_le32enc_append (n : Nat) (r : List Nat) :
    u32at (le32enc n ++ r) = n % 4294967296 := by
  have h : (le32enc n ++ r).take 4 = le32enc n := by
    simp [le32enc]
  rw [u32at, h, leDec_le32enc]

theorem u64at_le64enc_append (n : Nat) (r : List Nat) :
    u64at (le64enc n ++ r) = n % 18446744073709551616 := by
  have h : (le64enc n ++ r).take 8 = le64enc n := by
    simp [le64enc]
  rw [u64at, h]
  simp only [le64enc, leDec]
  omega

/-! ## Wire structs (`steam/utils/structs.py`) -/

/-- The 20-byte legacy header `MsgHdr` (`struct` format `"<IQQ"`). -/
structure MsgHdr where
  emsg : Nat
  target_job_id : Nat
  source_job_id : Nat
  deriving DecidableEq, Repr

/-- `MsgHdr.pack`: `struct.pack("<IQQ", emsg, target_job_id, source_job_id)`. -/
def MsgHdr.pack (h : MsgHdr) : List Nat :=
  le32enc h.emsg ++ le64enc h.target_job_id ++ le64enc h.source_job_id

/-- `MsgHdr.__init__(data)` for a 20-byte `data`: `struct.unpack("<IQQ", data)`. -/
def MsgHdr.ofBytes (b : List Nat) : MsgHdr :=
  { emsg := u32at b, target_job_id := u64at (b.drop 4), source_job_id := u64at (b.drop 12) }

/-- `MsgChannelEncryptResponse`: fields as assigned by `__init__` and the handshake. -/
structure MsgChannelEncryptResponse where
  protocol_version : Nat
  key_size : Nat
  key : List Nat
  crc : Nat
  deriving DecidableEq, Repr

/-- `MsgChannelEncryptResponse.pack`:
`struct.pack("<II", protocol_version, key_size) + key + struct.pack("<I", crc)`. -/
def MsgChannelEncryptResponse.pack (r : MsgChannelEncryptResponse) : List Nat :=
  le32enc r.protocol_version ++ le32enc r.key_size ++ r.key ++ le32enc r.crc

/-! ## Server registry (`CMClient.get_server_list`) -/

/-- Python `str.split(':')` on a string given as a character list. -/
def splitColon : List Char → List (List Char)
  | [] => [[]]
  | c :: cs =>
    if c = ':' then [] :: splitColon cs
    else
      match splitColon cs with
      | [] => [[c]]
      | p :: ps => (c :: p) :: ps

def digitsNat (cs : List Char) : Nat :=
  cs.foldl (fun n c => 10 * n + (c.toNat - 48)) 0

/-- Python `int(s)`: strip surrounding whitespace, optional sign, then a
non-empty run of decimal digits; anything else raises `ValueError` (`none`). -/
def pyInt (cs : List Char) : Option Int :=
  let t := ((cs.dropWhile Char.isWhitespace).reverse.dropWhile Char.isWhitespace).reverse
  let p : Int × List Char :=
    match t with
    | c :: rest =>
      if c = '-' then (-1, rest)
      else if c = '+' then (1, rest)
      else (1, c :: rest)
    | [] => (1, [])
  if p.2 = [] then none
  else if p.2.all Char.isDigit then some (p.1 * Int.ofNat (digitsNat p.2)) else none

/-- One loop iteration of `get_server_list`:
`host, port = server_ip.split(':'); port = int(port)`.
`none` models an uncaught `ValueError` (the split does not yield exactly
two parts, or the port is not numeric). -/
def parseEntry (s : List Char) : Option (List Char × Int) :=
  match splitColon s with
  | [host, port] => (pyInt port).map (fun p => (host, p))
  | _ => none

/-- The abstract outcome of the `aiohttp` GET + `response.json()` step:
either the serverlist entries, or an `aiohttp.ClientError` (unreachable
endpoint, HTTP error status, non-JSON content type). -/
inductive FetchOutcome where
  | clientError
  | ok (entries : List (List Char))
  deriving DecidableEq

/-- The registry fields of `CMClient` touched by `get_server_list` and
`_find_fastest_server` (the cached latency value is irrelevant to the
claims and is dropped from the cache). -/
structure RegistryState where
  server_list : List (List Char × Int)
  fastest_server : Option (List Char × Int)
  deriving DecidableEq

/-- The projection loop of `get_server_list`, threading the incrementally
updated `self.server_list` (`acc`).  Returns the call's result
(`none` = the loop raised `ValueError`) together with the final
`server_list` field. -/
def buildServerList : List (List Char) → List (List Char × Int) →
    Option (List (List Char × Int)) × List (List Char × Int)
  | [], acc => (some acc, acc)
  | e :: es, acc =>
    match parseEntry e with
    | some hp => buildServerList es (acc ++ [hp])
    | none => (none, acc)

/-- `CMClient.get_server_list`, with the network/JSON step abstracted into a
`FetchOutcome`.  The first component is what the call returns (`none` = it
raised), the second the registry state afterwards.  On `ClientError` the
`except` clause returns `[]` and `self.server_list` is left unchanged;
otherwise `self.server_list` is rebuilt entry by entry.
`fastest_server` is never assigned in this method. -/
def get_server_list (st : RegistryState) (outcome : FetchOutcome) :
    Option (List (List Char × Int)) × RegistryState :=
  match outcome with
  | .clientError => (some [], st)
  | .ok entries =>
    let r := buildServerList entries []
    (r.1, { st with server_list := r.2 })

/-! ## Event emitter (`EventEmitter.emit` and `remove_listener`) -/

/-- `list.remove(x)` wrapped in `remove_listener`'s `try/except ValueError`:
drop the first occurrence, no-op when absent. -/
def removeFirst : List Nat → Nat → List Nat
  | [], _ => []
  | x :: xs, y => if x = y then xs else x :: removeFirst xs y

/-- The effect of one callback invocation on the topic's subscriber list:
it calls `remove_listener` once per id in its removal list, in order. -/
def applyRemovals (l : List Nat) (rs : List Nat) : List Nat := rs.foldl removeFirst l

theorem removeFirst_length_le (l : List Nat) (y : Nat) :
    (removeFirst l y).length ≤ l.length := by
  induction l with
  | nil => simp [removeFirst]
  | cons x xs ih =>
    by_cases h : x = y
    · simp [removeFirst, h]
    · simp only [removeFirst, if_neg h, List.length_cons]
      omega

theorem applyRemovals_length_le (rs : List Nat) (l : List Nat) :
    (applyRemovals l rs).length ≤ l.length := by
  induction rs generalizing l with
  | nil => simp [applyRemovals]
  | cons r rs ih =>
    have h1 := removeFirst_length_le l r
    have h2 := ih (removeFirst l r)
    simp only [applyRemovals, List.foldl_cons] at h2 ⊢
    omega

theorem emitLoop_dec (l x : List Nat) (i : Nat) (h : i < l.length) :
    (applyRemovals l x).length - (i + 1) < l.length - i := by
  have := applyRemovals_length_le x l
  omega

/-- `EventEmitter.emit`'s dispatch loop.  CPython's
`for callback in self._listeners[event]` iterates the *live* list by
index: step `i` reads `l[i]` if `i < len(l)`, invokes it (which may mutate
the list via `remove_listener`), then moves to `i+1`.  Callbacks are
identified by `Nat` ids; `effects c` is the list of ids callback `c`
removes from this topic's list when invoked.  The result is the sequence
of callbacks actually invoked, in order. -/
def emitLoop (effects : Nat → List Nat) (l : List Nat) (i : Nat) : List Nat :=
  if h : i < l.length then
    let c := l.get ⟨i, h⟩
    c :: emitLoop effects (applyRemovals l (effects c)) (i + 1)
  else []
termination_by l.length - i
decreasing_by
  simp_wf
  apply emitLoop_dec
  omega

/-- `EventEmitter.emit(event, packet)` restricted to one topic whose
subscriber list is `subs`: returns the callbacks invoked, in order. -/
def emit (effects : Nat → List Nat) (subs : List Nat) : List Nat :=
  emitLoop effects subs 0

/-! ## Packet codec (`steam/utils/packet.py`, the variant that parses the
protobuf header) -/

/-- `ProtobufManager.is_protobuf(emsg_id)`: `(emsg_id & 0x80000000) > 0`. -/
def ProtobufManager.is_protobuf_flag (emsg_id : Nat) : Bool :=
  0 < emsg_id &&& 2147483648

/-- `ProtobufManager.add_mask(emsg_id)`: `emsg_id | 0x80000000`. -/
def ProtobufManager.add_mask (emsg_id : Nat) : Nat :=
  emsg_id ||| 2147483648

/-- `ProtobufManager.remove_mask(emsg_id)`: `emsg_id & ~0x80000000`, i.e.
clear bit 31 and keep every other bit. -/
def ProtobufManager.remove_mask (emsg_id : Nat) : Nat :=
  if 0 < emsg_id &&& 2147483648 then emsg_id - 2147483648 else emsg_id

/-- The decoded `CMsgMulti` protobuf: the two fields read by `unpack_multi`. -/
structure CMsgMulti where
  size_unzipped : Nat
  message_body : List Nat
  deriving DecidableEq, Repr

/-- `SteamPacket.body`: `None`, raw bytes, a decoded `CMsgMulti`, or another
decoded protobuf message (kept as its message id and wire bytes). -/
inductive PacketBody where
  | null
  | raw (data : List Nat)
  | multiMsg (m : CMsgMulti)
  | protoMsg (emsg : Nat) (data : List Nat)
  deriving DecidableEq, Repr

/-- `SteamPacket.header`: `None`, a legacy `MsgHdr`, or a decoded
`CMsgProtoBufHeader` (kept as the wire bytes it was parsed from). -/
inductive PacketHeader where
  | null
  | legacy (h : MsgHdr)
  | protoHdr (raw : List Nat)
  deriving DecidableEq, Repr

structure SteamPacket where
  emsg : Nat
  emsgKnown : Bool
  is_protobuf : Bool
  header : PacketHeader
  body : PacketBody
  deriving DecidableEq, Repr

/-- The external collaborators of the codec and handshake: which ids are
members of the `EMsg` enum, the numeric values of the handshake/Multi
messages, the protobuf registry and the protobuf/zlib/crc library calls.
`headerOk`/`decodeOk` model whether `ParseFromString` succeeds;
`parseMulti` models decoding a `CMsgMulti`; `gunzip`/`zipFirst` model
`gzip.decompress` and reading the first entry of a zip archive. -/
structure ProtoEnv where
  knownEMsg : Nat → Bool
  multiId : Nat
  reqId : Nat
  respId : Nat
  resId : Nat
  hasClass : Nat → Bool
  headerOk : List Nat → Bool
  decodeOk : Nat → List Nat → Bool
  parseMulti : List Nat → Option CMsgMulti
  gunzip : List Nat → Option (List Nat)
  zipFirst : List Nat → Option (List Nat)
  crc32 : List Nat → Nat

/-- `SteamPacket.__init__(emsg, data, is_protobuf)`.  `none` models a raised
exception (`struct.unpack` on a short buffer, or `ParseFromString` on
malformed bytes).  The legacy branch packs
`struct.pack("<I", int(emsg)) + data[:16]` into a `MsgHdr` (which needs
exactly 20 bytes, so `data` must hold at least 16) and keeps
`data[16:]` as the body. -/
def mkSteamPacket (env : ProtoEnv) (emsg : Nat) (known : Bool)
    (data : List Nat) (is_pb : Bool) : Option SteamPacket :=
  if is_pb && known then
    if data.length < 4 then none
    else
      let header_len := u32at data
      let header_data := (data.drop 4).take header_len
      let rest := (data.drop 4).drop header_len
      if env.headerOk header_data then
        if env.hasClass emsg then
          if emsg = env.multiId then
            match env.parseMulti rest with
            | some m => some ⟨emsg, known, is_pb, .protoHdr header_data, .multiMsg m⟩
            | none => none
          else if env.decodeOk emsg rest then
            some ⟨emsg, known, is_pb, .protoHdr header_data, .protoMsg emsg rest⟩
          else none
        else some ⟨emsg, known, is_pb, .protoHdr header_data, .raw rest⟩
      else none
  else
    if data.length < 16 then none
    else some ⟨emsg, known, is_pb,
      .legacy (MsgHdr.ofBytes (le32enc emsg ++ data.take 16)), .raw (data.drop 16)⟩

/-- `SteamPacket.parse(data)`: read the leading u32, test and strip the
protobuf mask, look the id up in `EMsg`, and construct the packet from
`data[4:]`. -/
def SteamPacket.parse (env : ProtoEnv) (data : List Nat) : Option SteamPacket :=
  if data.length < 4 then none
  else
    let raw_id := u32at data
    let is_pb := ProtobufManager.is_protobuf_flag raw_id
    let emsg_id := if is_pb then ProtobufManager.remove_mask raw_id else raw_id
    mkSteamPacket env emsg_id (env.knownEMsg emsg_id) (data.drop 4) is_pb

/-- The compression discrimination of `unpack_multi`: when `size_unzipped`
is non-zero, a body starting with ASCII `PK` is read as a zip archive's
first entry, anything else is gunzipped; when zero the body is used
directly. -/
def multiData (env : ProtoEnv) (m : CMsgMulti) : Option (List Nat) :=
  if m.size_unzipped ≠ 0 then
    if m.message_body.take 2 = [80, 75] then env.zipFirst m.message_body
    else env.gunzip m.message_body
  else some m.message_body

/-- The sub-packet loop of `unpack_multi`: while bytes remain, read a
4-byte little-endian length (raising — `none` — when fewer than 4 bytes
remain), slice that many bytes, parse them, and continue after the slice. -/
def multiLoop (env : ProtoEnv) (data : List Nat) : Option (List SteamPacket) :=
  if data.length = 0 then some []
  else if data.length < 4 then none
  else
    let msg_len := u32at data
    let msg_data := (data.drop 4).take msg_len
    let rest := (data.drop 4).drop msg_len
    match SteamPacket.parse env msg_data with
    | none => none
    | some p =>
      match multiLoop env rest with
      | none => none
      | some ps => some (p :: ps)
termination_by data.length
decreasing_by
  simp only [List.length_drop]
  omega

/-- `SteamPacket.unpack_multi`: return `[]` unless the id is `Multi`;
re-decode a raw body as `CMsgMulti`; a `None` body falls through to `[]`;
then decompress if needed and run the sub-packet loop. -/
def SteamPacket.unpack_multi (env : ProtoEnv) (p : SteamPacket) :
    Option (List SteamPacket) :=
  if p.emsg ≠ env.multiId then some []
  else
    match p.body with
    | .raw d =>
      match env.parseMulti d with
      | some m => (multiData env m).bind (multiLoop env)
      | none => none
    | .multiMsg m => (multiData env m).bind (multiLoop env)
    | .null => some []
    | .protoMsg _ _ => none

/-- Sequential parse of a list of sub-frames, failing as soon as one
fails: the reference result `unpack_multi` is compared against. -/
def parseAll (env : ProtoEnv) : List (List Nat) → Option (List SteamPacket)
  | [] => some []
  | f :: fs =>
    match SteamPacket.parse env f with
    | none => none
    | some p =>
      match parseAll env fs with
      | none => none
      | some ps => some (p :: ps)

/-- The length-prefixed concatenation `len(p1)||p1||...||len(pN)||pN`. -/
def encodeFrames (frames : List (List Nat)) : List Nat :=
  (frames.map (fun p => le32enc p.length ++ p)).flatten

/-! ## Handshake (`steam/utils/handshake.py`) -/

/-- The session-key fields of the client touched by the handshake
(`CMClient.__init__` starts both at `None`). -/
structure HSState where
  session_key : Option (List Nat)
  hmac_secret : Option (List Nat)
  deriving DecidableEq, Repr

def initialHSState : HSState := ⟨none, none⟩

/-- What a handshake run produces: the returned boolean, the key state
afterwards, and the payload handed to `client.send` (if reached). -/
structure HSOutcome where
  ok : Bool
  state : HSState
  sent : Option (List Nat)
  deriving DecidableEq, Repr

def PacketBody.isNull : PacketBody → Bool
  | .null => true
  | _ => false

/-- `perform_handshake(client)`, with the effects made explicit:
`frame1`/`frame2` are the two `client.listen()` results, and
`session_key`/`encrypted_key` are the pair returned by
`generate_session_key(request.challenge)` in this run (its randomness and
the RSA-OAEP wrap live outside the model).  The outer `none` models an
uncaught exception from `SteamPacket.parse` or from
`MsgChannelEncryptRequest(body)` on a short body.  Note that after the
second frame parses as `ChannelEncryptResult` the body's result code is
never read: the keys are installed and `True` is returned. -/
def perform_handshake (env : ProtoEnv) (st : HSState)
    (frame1 frame2 : Option (List Nat))
    (session_key encrypted_key : List Nat) : Option HSOutcome :=
  match frame1 with
  | none => some ⟨false, st, none⟩
  | some m1 =>
    match SteamPacket.parse env m1 with
    | none => none
    | some pkt =>
      if pkt.emsg ≠ env.reqId ∨ pkt.body.isNull = true then some ⟨false, st, none⟩
      else
        match pkt.body with
        | .raw b =>
          if b.length < 8 then none
          else
            let crc := env.crc32 encrypted_key % 4294967296
            let response : MsgChannelEncryptResponse :=
              { protocol_version := 1, key_size := encrypted_key.length,
                key := encrypted_key, crc := crc }
            let header : MsgHdr :=
              { emsg := env.respId, target_job_id := 18446744073709551615,
                source_job_id := 18446744073709551615 }
            let payload := header.pack ++ response.pack
            match frame2 with
            | none => some ⟨false, st, some payload⟩
            | some m2 =>
              match SteamPacket.parse env m2 with
              | none => none
              | some pkt2 =>
                if pkt2.emsg ≠ env.resId then some ⟨false, st, some payload⟩
                else some ⟨true, ⟨some session_key, some (session_key.take 16)⟩,
                  some payload⟩
        | _ => none

/-! ## Symmetric crypto (`steam/utils/crypto.py`)

The AES block permutation and HMAC-SHA1 come from PyCryptodome; they enter
the model as parameters: `E`/`D` are the keyed AES-128 block
encryption/decryption (so `D (E b) = b` for 16-byte blocks, and `E`
preserves block length), and `hmacF s d` is `HMAC.new(s, d, SHA1).digest()`
(20 bytes).  CBC chaining, the ECB-encrypted IV, PKCS#7 padding and the
layout of `crypto.py` are modelled concretely. -/

def xorBytes (a b : List Nat) : List Nat := List.zipWith Nat.xor a b

/-- Split into 16-byte blocks (the input lengths used are multiples of 16). -/
def chunks16 (l : List Nat) : List (List Nat) :=
  if l.length = 0 then []
  else l.take 16 :: chunks16 (l.drop 16)
termination_by l.length
decreasing_by
  simp only [List.length_drop]
  omega

/-- AES-CBC encryption of a block sequence under block cipher `E` and IV. -/
def cbcEncBlocks (E : List Nat → List Nat) (iv : List Nat) :
    List (List Nat) → List (List Nat)
  | [] => []
  | b :: bs =>
    let c := E (xorBytes iv b)
    c :: cbcEncBlocks E c bs

/-- AES-CBC decryption of a block sequence under block decipher `D` and IV. -/
def cbcDecBlocks (D : List Nat → List Nat) (iv : List Nat) :
    List (List Nat) → List (List Nat)
  | [] => []
  | c :: cs => xorBytes iv (D c) :: cbcDecBlocks D c cs

def cbcEncrypt (E : List Nat → List Nat) (iv m : List Nat) : List Nat :=
  (cbcEncBlocks E iv (chunks16 m)).flatten

def cbcDecrypt (D : List Nat → List Nat) (iv ct : List Nat) : List Nat :=
  (cbcDecBlocks D iv (chunks16 ct)).flatten

/-- `Crypto.Util.Padding.pad(m, 16)` (PKCS#7). -/
def pad16 (m : List Nat) : List Nat :=
  m ++ List.replicate (16 - m.length % 16) (16 - m.length % 16)

/-- `Crypto.Util.Padding.unpad(p, 16)` (PKCS#7): `none` models the raised
`ValueError` on a length that is not a positive multiple of 16 or on
inconsistent padding bytes. -/
def unpad16 (p : List Nat) : Option (List Nat) :=
  if p.length = 0 ∨ p.length % 16 ≠ 0 then none
  else
    match p.getLast? with
    | none => none
    | some n =>
      if 1 ≤ n ∧ n ≤ 16 ∧ p.drop (p.length - n) = List.replicate n n then
        some (p.take (p.length - n))
      else none

/-- `symmetric_encrypt_with_iv(message, key, iv)`:
`AES.new(key, ECB).encrypt(iv) + AES.new(key, CBC, iv).encrypt(pad(message, 16))`. -/
def symmetric_encrypt_with_iv (E : List Nat → List Nat) (message iv : List Nat) :
    List Nat :=
  E iv ++ cbcEncrypt E iv (pad16 message)

/-- `symmetric_encrypt_HMAC(message, key, hmac_secret)` with the 3 random
prefix bytes `pfx` made explicit:
`iv = hmac_sha1(hmac_secret, pfx + message)[:13] + pfx`. -/
def symmetric_encrypt_HMAC (E : List Nat → List Nat)
    (hmacF : List Nat → List Nat → List Nat)
    (message hmac_secret pfx : List Nat) : List Nat :=
  let hm := hmacF hmac_secret (pfx ++ message)
  let iv := hm.take 13 ++ pfx
  symmetric_encrypt_with_iv E message iv

/-- `symmetric_decrypt_iv(message, key)`: ECB-decrypt the first 16 bytes. -/
def symmetric_decrypt_iv (D : List Nat → List Nat) (message : List Nat) :
    List Nat :=
  D (message.take 16)

/-- `symmetric_decrypt_with_iv(message, key, iv)`:
`unpad(AES.new(key, CBC, iv).decrypt(message[16:]), 16)`. -/
def symmetric_decrypt_with_iv (D : List Nat → List Nat) (message iv : List Nat) :
    Option (List Nat) :=
  unpad16 (cbcDecrypt D iv (message.drop 16))

/-- `symmetric_decrypt_HMAC(message, key, hmac_secret)`: decrypt, recompute
`hmac_sha1(hmac_secret, iv[-3:] + plaintext)` and compare its first 13
bytes with `iv[:13]`; `none` models the raised `RuntimeError` (and a
padding `ValueError`). -/
def symmetric_decrypt_HMAC (D : List Nat → List Nat)
    (hmacF : List Nat → List Nat → List Nat)
    (message hmac_secret : List Nat) : Option (List Nat) :=
  let iv := symmetric_decrypt_iv D message
  match symmetric_decrypt_with_iv D message iv with
  | none => none
  | some dec =>
    let hm := hmacF hmac_secret (iv.drop (iv.length - 3) ++ dec)
    if iv.take 13 = hm.take 13 then some dec else none

/-! ## A concrete environment for witness runs -/

/-- Modelled from the spec: the numeric `EMsg` values (the module
`steam/enums/emsgs.py` is not under `src/`; the spec only names
`ChannelEncryptRequest`, `ChannelEncryptResponse`, `ChannelEncryptResult`
and `Multi`, whose classic wire ids are 1303, 1304, 1305 and 1).  The
library hooks are inert: the only protobuf class is `CMsgMulti`, protobuf
headers always parse, nothing decompresses, and crc is constantly 0. -/
def demoEnv : ProtoEnv where
  knownEMsg := fun n => n == 1 || n == 1303 || n == 1304 || n == 1305
  multiId := 1
  reqId := 1303
  respId := 1304
  resId := 1305
  hasClass := fun n => n == 1
  headerOk := fun _ => true
  decodeOk := fun _ _ => false
  parseMulti := fun _ => none
  gunzip := fun _ => none
  zipFirst := fun _ => none
  crc32 := fun _ => 0

/-- The spec-side projection of a serverlist: split each entry on `:` into
a host and a numeric port, failing if any entry is malformed. -/
def projectEntries : List (List Char) → Option (List (List Char × Int))
  | [] => some []
  | e :: es =>
    match parseEntry e with
    | some hp => (projectEntries es).map (fun l => hp :: l)
    | none => none

theorem buildServerList_fst (es : List (List Char)) :
    ∀ acc, (buildServerList es acc).1 = (projectEntries es).map (fun l => acc ++ l) := by
  induction es with
  | nil => intro acc; simp [buildServerList, projectEntries]
  | cons e es ih =>
    intro acc
    simp only [buildServerList, projectEntries]
    cases hpe : parseEntry e with
    | none => simp
    | some hp =>
      rw [ih (acc ++ [hp])]
      cases projectEntries es <;> simp

/-! ## C4: error handling of `get_server_list` -/

/-- C4 counterexample: a serverlist entry `"st"` with no `:` makes
`get_server_list` raise an uncaught `ValueError` (modelled `none`) — it
does not return the empty list as the claim states. -/
theorem C4_counterexample :
    (get_server_list ⟨[], none⟩ (FetchOutcome.ok [['s', 't']])).1 = none ∧
    (get_server_list ⟨[], none⟩ (FetchOutcome.ok [['s', 't']])).1 ≠ some [] := by
  exact ⟨rfl, by decide⟩

/-- C4 (amended): a network failure (`aiohttp.ClientError`, which covers
an unreachable endpoint, an HTTP error status and a non-JSON content
type) is caught and yields the empty list; a successful fetch returns the
projection of the entries when every entry splits into a host and a
numeric port; but a malformed entry makes the call raise an uncaught
`ValueError` (`none`) instead of returning the empty list. -/
theorem C4_amended (st : RegistryState) (entries : List (List Char)) :
    (get_server_list st FetchOutcome.clientError).1 = some [] ∧
    (get_server_list st (FetchOutcome.ok entries)).1 = projectEntries entries := by
  refine ⟨rfl, ?_⟩
  simp only [get_server_list, buildServerList_fst entries []]
  cases projectEntries entries <;> simp

/-! ## C9: the cached fastest endpoint across fetches -/

/-- C9 counterexample: starting with cached fastest endpoint `("a", 1)`,
a completed fetch returning only `"b:2"` replaces the server list but
leaves the cache pointing at `("a", 1)`, which is not a member of the
most recent fetch and has not been cleared — the claimed invariant is
false. -/
theorem C9_counterexample :
    (get_server_list ⟨[(['a'], 1)], some (['a'], 1)⟩
        (FetchOutcome.ok [['b', ':', '2']])).2.fastest_server = some (['a'], 1) ∧
    (get_server_list ⟨[(['a'], 1)], some (['a'], 1)⟩
        (FetchOutcome.ok [['b', ':', '2']])).2.server_list = [(['b'], 2)] ∧
    (['a'], (1 : Int)) ∉ (get_server_list ⟨[(['a'], 1)], some (['a'], 1)⟩
        (FetchOutcome.ok [['b', ':', '2']])).2.server_list := by
  refine ⟨rfl, rfl, ?_⟩
  decide

/-- C9 (amended): `get_server_list` never touches the cached fastest
endpoint: after every completed fetch it is exactly what it was before the
fetch, whether or not it appears in the newly fetched list (no validation
or clearing happens). -/
theorem C9_amended (st : RegistryState) (outcome : FetchOutcome) :
    ((get_server_list st outcome).2).fastest_server = st.fastest_server := by
  cases outcome <;> rfl

/-! ## C10: the `unpack_multi` fallbacks -/

/-- C10: `unpack_multi` returns the empty list rather than raising for
every packet whose message id is not `Multi`, and for a `Multi` packet
whose body is `None`. -/
theorem C10_unpack_multi_fallback (env : ProtoEnv) (p : SteamPacket)
    (h : p.emsg ≠ env.multiId ∨ p.body = PacketBody.null) :
    SteamPacket.unpack_multi env p = some [] := by
  rcases h with h | h
  · simp [SteamPacket.unpack_multi, h]
  · by_cases he : p.emsg = env.multiId
    · simp [SteamPacket.unpack_multi, he, h]
    · simp [SteamPacket.unpack_multi, he]

/-- C10 witness: a concrete non-`Multi` packet. -/
theorem C10_witness :
    SteamPacket.unpack_multi demoEnv
      ⟨5, false, false, PacketHeader.null, PacketBody.null⟩ = some [] :=
  C10_unpack_multi_fallback demoEnv _ (Or.inl (by decide))

/-! ## C3: the packed `ChannelEncryptResponse` body -/

/-- C3 counterexample: the packed response for a concrete 128-byte key
blob and crc 7 is not the claimed layout with a trailing zero u32 — the
pack stops after the crc field. -/
theorem C3_counterexample :
    MsgChannelEncryptResponse.pack
      { protocol_version := 1, key_size := 128, key := List.replicate 128 0, crc := 7 } ≠
    le32enc 1 ++ le32enc 128 ++ List.replicate 128 0 ++ le32enc 7 ++ le32enc 0 := by
  decide

/-- C3 (amended): for every 128-byte encrypted key blob and crc, the
packed `ChannelEncryptResponse` body (fields as the handshake assigns
them: `protocol_version = 1`, `key_size = len(key)`) is exactly
`u32(1) || u32(128) || key || u32(crc)` — 140 bytes, with no trailing
zero u32 after the crc field. -/
theorem C3_amended (key : List Nat) (crc : Nat) (hk : key.length = 128) :
    MsgChannelEncryptResponse.pack
      { protocol_version := 1, key_size := key.length, key := key, crc := crc } =
    le32enc 1 ++ le32enc 128 ++ key ++ le32enc crc ∧
    (MsgChannelEncryptResponse.pack
      { protocol_version := 1, key_size := key.length, key := key, crc := crc }).length
      = 140 := by
  constructor
  · simp [MsgChannelEncryptResponse.pack, hk]
  · simp [MsgChannelEncryptResponse.pack, le32enc, hk]

/-- C3 witness: the amended layout at a concrete key blob and crc. -/
theorem C3_amended_witness :
    MsgChannelEncryptResponse.pack
      { protocol_version := 1, key_size := (List.replicate 128 3).length,
        key := List.replicate 128 3, crc := 5 } =
    le32enc 1 ++ le32enc 128 ++ List.replicate 128 3 ++ le32enc 5 ∧
    (MsgChannelEncryptResponse.pack
      { protocol_version := 1, key_size := (List.replicate 128 3).length,
        key := List.replicate 128 3, crc := 5 }).length = 140 :=
  C3_amended (List.replicate 128 3) 5 (by simp)

/-! ## Legacy parsing: the shared lemma for C1, C2, C8 -/

theorem land_two_pow31_eq_zero {n : Nat} (h : n < 2147483648) :
    n &&& 2147483648 = 0 := by
  have h2 : (2147483648 : Nat) = 2 ^ 31 := by norm_num
  have h3 : n < 2 ^ 31 := by omega
  rw [h2, Nat.and_two_pow, Nat.testBit_lt_two_pow h3]
  simp

theorem is_protobuf_flag_of_lt {n : Nat} (h : n < 2147483648) :
    ProtobufManager.is_protobuf_flag n = false := by
  simp [ProtobufManager.is_protobuf_flag, land_two_pow31_eq_zero h]

/-- Parsing a legacy (non-protobuf) frame `u32le(id) || rest` with
`id < 2^31` and `rest` of at least 16 bytes: the packet keeps `id`, packs
`u32le(id) || rest[:16]` into the 20-byte header, and keeps `rest[16:]`
as the body. -/
theorem parse_legacy (env : ProtoEnv) (id : Nat) (rest : List Nat)
    (hid : id < 2147483648) (hlen : 16 ≤ rest.length) :
    SteamPacket.parse env (le32enc id ++ rest) =
      some ⟨id, env.knownEMsg id, false,
        PacketHeader.legacy (MsgHdr.ofBytes (le32enc id ++ rest.take 16)),
        PacketBody.raw (rest.drop 16)⟩ := by
  have hlen4 : ¬ (le32enc id ++ rest).length < 4 := by
    simp [le32enc]
  have hid32 : u32at (le32enc id ++ rest) = id := by
    rw [u32at_le32enc_append]; omega
  have hdrop : (le32enc id ++ rest).drop 4 = rest := List.drop_left' (by simp [le32enc])
  rw [SteamPacket.parse, if_neg hlen4]
  simp only [hid32, hdrop, is_protobuf_flag_of_lt hid, mkSteamPacket,
    Bool.false_and, Bool.false_eq_true, if_false, ite_false]
  rw [if_neg (by omega)]

/-! ## C8: the legacy layout parses to the canonical contract -/

/-- C8: every legacy frame `u32le(id) || u64le(tjid) || u64le(sjid) || body`
with `id < 2^31` parses to a non-protobuf packet whose 20-byte header
fields are exactly `(id, tjid, sjid)` and whose body is exactly the
trailing bytes — no off-by-four truncation or shift. -/
theorem C8_parse_legacy_canonical (env : ProtoEnv) (id tj sj : Nat)
    (body : List Nat) (hid : id < 2147483648)
    (htj : tj < 18446744073709551616) (hsj : sj < 18446744073709551616) :
    SteamPacket.parse env (le32enc id ++ (le64enc tj ++ le64enc sj ++ body)) =
      some ⟨id, env.knownEMsg id, false, PacketHeader.legacy ⟨id, tj, sj⟩,
        PacketBody.raw body⟩ := by
  have htake : (le64enc tj ++ le64enc sj ++ body).take 16 = le64enc tj ++ le64enc sj :=
    List.take_left' (by simp [le64enc])
  have hdrop : (le64enc tj ++ le64enc sj ++ body).drop 16 = body :=
    List.drop_left' (by simp [le64enc])
  rw [parse_legacy env id _ hid (by simp [le64enc]), htake, hdrop]
  have hhdr : MsgHdr.ofBytes (le32enc id ++ (le64enc tj ++ le64enc sj)) =
      ⟨id, tj, sj⟩ := by
    have h1 : u32at (le32enc id ++ (le64enc tj ++ le64enc sj)) = id := by
      rw [u32at_le32enc_append]; omega
    have h2 : (le32enc id ++ (le64enc tj ++ le64enc sj)).drop 4 =
        le64enc tj ++ le64enc sj := List.drop_left' (by simp [le32enc])
    have h3 : (le32enc id ++ (le64enc tj ++ le64enc sj)).drop 12 = le64enc sj := by
      rw [show le32enc id ++ (le64enc tj ++ le64enc sj) =
        (le32enc id ++ le64enc tj) ++ le64enc sj by simp]
      exact List.drop_left' (by simp [le32enc, le64enc])
    have h4 : u64at (le64enc tj ++ le64enc sj) = tj := by
      rw [u64at_le64enc_append]; omega
    have h5 : u64at (le64enc sj) = sj := by
      rw [show le64enc sj = le64enc sj ++ [] by simp, u64at_le64enc_append]
      omega
    rw [MsgHdr.ofBytes, h1, h2, h3, h4, h5]
  rw [hhdr]

/-- C8 witness: a concrete legacy frame. -/
theorem C8_witness :
    SteamPacket.parse demoEnv
      (le32enc 1303 ++ (le64enc 11 ++ le64enc 12 ++ [1, 2, 3])) =
      some ⟨1303, demoEnv.knownEMsg 1303, false,
        PacketHeader.legacy ⟨1303, 11, 12⟩, PacketBody.raw [1, 2, 3]⟩ :=
  C8_parse_legacy_canonical demoEnv 1303 11 12 [1, 2, 3]
    (by decide) (by decide) (by decide)

/-! ## C1: the result code of `ChannelEncryptResult` -/

/-- The first handshake frame of a demo run: a legacy
`ChannelEncryptRequest` carrying `(protocol_version=1, universe=1)` and a
16-byte challenge of zeros. -/
def hsFrame1 : List Nat :=
  le32enc 1303 ++ (List.replicate 16 255 ++
    (le32enc 1 ++ (le32enc 1 ++ List.replicate 16 0)))

/-- A legacy `ChannelEncryptResult` frame whose body is the 4-byte
little-endian result `code`. -/
def hsResultFrame (code : Nat) : List Nat :=
  le32enc 1305 ++ (List.replicate 16 255 ++ le32enc code)

/-- C1 counterexample: a handshake run whose `ChannelEncryptResult` body
carries result code 5 (not OK) still reports success — contradicting the
claim that any code other than 1 fails the handshake. -/
theorem C1_counterexample :
    (perform_handshake demoEnv initialHSState (some hsFrame1)
        (some (hsResultFrame 5)) (List.replicate 32 9)
        (List.replicate 128 7)).map (fun o => o.ok) = some true := rfl

/-- C1 (amended): the handshake never examines the result code: whenever
the first frame is a legacy `ChannelEncryptRequest` with a well-formed
body and the second frame is a legacy frame whose id is
`ChannelEncryptResult`, it reports success whatever 4-byte result code
the second frame's body carries; there is no rejection path keyed on the
code. -/
theorem C1_amended (env : ProtoEnv) (st : HSState) (sk ek : List Nat)
    (jobs1 body1 jobs2 : List Nat) (code : Nat)
    (hreq : env.reqId < 2147483648) (hres : env.resId < 2147483648)
    (hj1 : jobs1.length = 16) (hb1 : 8 ≤ body1.length)
    (hj2 : jobs2.length = 16) :
    (perform_handshake env st (some (le32enc env.reqId ++ (jobs1 ++ body1)))
        (some (le32enc env.resId ++ (jobs2 ++ le32enc code))) sk ek).map
      (fun o => o.ok) = some true := by
  have hp1 := parse_legacy env env.reqId (jobs1 ++ body1) hreq
    (by simp only [List.length_append]; omega)
  rw [List.drop_left' hj1] at hp1
  have hp2 := parse_legacy env env.resId (jobs2 ++ le32enc code) hres
    (by simp only [List.length_append]; omega)
  rw [List.drop_left' hj2] at hp2
  simp only [perform_handshake, hp1, hp2]
  rw [if_neg (by simp [PacketBody.isNull])]
  rw [if_neg (by omega)]
  rw [if_neg (by simp)]
  rfl

/-- C1 witness for the amended theorem: a concrete run with result code 5. -/
theorem C1_amended_witness :
    (perform_handshake demoEnv initialHSState
        (some (le32enc demoEnv.reqId ++ (List.replicate 16 255 ++
          (le32enc 1 ++ (le32enc 1 ++ List.replicate 16 0)))))
        (some (le32enc demoEnv.resId ++ (List.replicate 16 255 ++ le32enc 5)))
        (List.replicate 32 9) (List.replicate 128 7)).map (fun o => o.ok)
      = some true :=
  C1_amended demoEnv initialHSState (List.replicate 32 9) (List.replicate 128 7)
    (List.replicate 16 255) (le32enc 1 ++ (le32enc 1 ++ List.replicate 16 0))
    (List.replicate 16 255) 5 (by decide) (by decide) (by decide) (by decide)
    (by decide)

/-! ## C2: the two key fields travel together -/

/-- C2: starting from the pre-handshake state (both fields `None`, as
`CMClient.__init__` sets them), every completed handshake run leaves
either both fields absent (exactly when it reports failure) or — exactly
when it reports success — `session_key` equal to the 32-byte key
generated in that run and `hmac_secret = session_key[:16]`; no outcome
has exactly one of the two set. -/
theorem C2_keys_installed_together (env : ProtoEnv)
    (frame1 frame2 : Option (List Nat)) (sk ek : List Nat) (out : HSOutcome)
    (hsk : sk.length = 32)
    (hrun : perform_handshake env initialHSState frame1 frame2 sk ek = some out) :
    (out.ok = false ∧ out.state.session_key = none ∧ out.state.hmac_secret = none) ∨
    (out.ok = true ∧ out.state.session_key = some sk ∧ sk.length = 32 ∧
      out.state.hmac_secret = some (sk.take 16)) := by
  unfold perform_handshake at hrun
  repeat' split at hrun
  all_goals try exact Option.noConfusion hrun
  all_goals simp only [Option.some.injEq] at hrun
  all_goals subst hrun
  all_goals first
    | exact Or.inl ⟨rfl, rfl, rfl⟩
    | exact Or.inr ⟨rfl, rfl, hsk, rfl⟩

/-- C2 witness: a run whose first read returns nothing fails and leaves
both fields `None`. -/
theorem C2_witness :
    (List.replicate 32 9).length = 32 ∧
    (((⟨false, initialHSState, none⟩ : HSOutcome).ok = false ∧
      (⟨false, initialHSState, none⟩ : HSOutcome).state.session_key = none ∧
      (⟨false, initialHSState, none⟩ : HSOutcome).state.hmac_secret = none) ∨
     ((⟨false, initialHSState, none⟩ : HSOutcome).ok = true ∧
      (⟨false, initialHSState, none⟩ : HSOutcome).state.session_key =
        some (List.replicate 32 9) ∧ (List.replicate 32 9).length = 32 ∧
      (⟨false, initialHSState, none⟩ : HSOutcome).state.hmac_secret =
        some ((List.replicate 32 9).take 16))) :=
  ⟨by decide, C2_keys_installed_together demoEnv none none (List.replicate 32 9) []
    ⟨false, initialHSState, none⟩ (by decide) rfl⟩

/-! ## C5: `emit` versus mutation during dispatch -/

/-- C5: with subscriber list `[1, 2]` where callback 1 removes itself
while being dispatched (exactly the single-shot `wait_for` listener
pattern), `emit` invokes only callback 1: callback 2, although registered
at emit time, is skipped because the loop iterates the live list by index
instead of a snapshot. -/
theorem C5_emit_skips_next_subscriber :
    emit (fun i => if i = 1 then [1] else []) [1, 2] = [1] := by
  rw [emit, emitLoop]
  simp only [List.length_cons, List.length_nil]
  rw [dif_pos (by omega)]
  simp only [List.get, applyRemovals, removeFirst, List.foldl]
  norm_num
  rw [emitLoop]
  simp

/-! ## C7: `unpack_multi` over a well-formed Multi payload -/

theorem parseAll_length (env : ProtoEnv) :
    ∀ frames qs, parseAll env frames = some qs → qs.length = frames.length := by
  intro frames
  induction frames with
  | nil =>
    intro qs h
    simp only [parseAll, Option.some.injEq] at h
    subst h
    rfl
  | cons f fs ih =>
    intro qs h
    simp only [parseAll] at h
    cases hp : SteamPacket.parse env f with
    | none => rw [hp] at h; exact Option.noConfusion h
    | some p =>
      rw [hp] at h
      cases hps : parseAll env fs with
      | none => rw [hps] at h; exact Option.noConfusion h
      | some ps =>
        rw [hps] at h
        simp only [Option.some.injEq] at h
        subst h
        simp [ih ps hps]

theorem parseAll_get (env : ProtoEnv) :
    ∀ frames qs, parseAll env frames = some qs →
      ∀ i (h1 : i < frames.length) (h2 : i < qs.length),
        SteamPacket.parse env (frames.get ⟨i, h1⟩) = some (qs.get ⟨i, h2⟩) := by
  intro frames
  induction frames with
  | nil => intro qs h i h1 h2; exact absurd h1 (by simp)
  | cons f fs ih =>
    intro qs h i h1 h2
    simp only [parseAll] at h
    cases hp : SteamPacket.parse env f with
    | none => rw [hp] at h; exact Option.noConfusion h
    | some p =>
      rw [hp] at h
      cases hps : parseAll env fs with
      | none => rw [hps] at h; exact Option.noConfusion h
      | some ps =>
        rw [hps] at h
        simp only [Option.some.injEq] at h
        subst h
        cases i with
        | zero => simpa using hp
        | succ j =>
          simp only [List.get_cons_succ]
          exact ih ps hps j (by simpa using h1) (by simpa using h2)

theorem multiLoop_encodeFrames (env : ProtoEnv) :
    ∀ frames, (∀ p ∈ frames, p.length < 4294967296) →
      multiLoop env (encodeFrames frames) = parseAll env frames := by
  intro frames
  induction frames with
  | nil =>
    intro _
    rw [encodeFrames, multiLoop]
    simp [parseAll]
  | cons f fs ih =>
    intro hlen
    have hf : f.length < 4294967296 := hlen f (by simp)
    have hfs : ∀ p ∈ fs, p.length < 4294967296 := fun p hp => hlen p (by simp [hp])
    have henc : encodeFrames (f :: fs) =
        le32enc f.length ++ (f ++ encodeFrames fs) := by
      simp [encodeFrames]
    rw [henc, multiLoop]
    rw [if_neg (by simp [le32enc]), if_neg (by simp [le32enc])]
    rw [u32at_le32enc_append, Nat.mod_eq_of_lt hf]
    rw [List.drop_left' (by simp [le32enc])]
    simp only [List.take_left, List.drop_left]
    rw [ih hfs, parseAll]

/-- C7: for a packet whose id is `Multi` and whose body is the decoded
`CMsgMulti` `m`, if the discriminated data (the body taken directly when
`size_unzipped = 0`, otherwise the zip-first-entry or gzip decompression
as chosen by the `PK` magic) is the length-prefixed concatenation of
sub-frames that all parse, then `unpack_multi` returns exactly those
parses, in order. -/
theorem C7_unpack_multi_inorder (env : ProtoEnv) (p : SteamPacket)
    (m : CMsgMulti) (frames : List (List Nat)) (qs : List SteamPacket)
    (d : List Nat) (hemsg : p.emsg = env.multiId)
    (hbody : p.body = PacketBody.multiMsg m)
    (hd : multiData env m = some d) (henc : d = encodeFrames frames)
    (hlen : ∀ f ∈ frames, f.length < 4294967296)
    (hok : parseAll env frames = some qs) :
    SteamPacket.unpack_multi env p = some qs ∧
    qs.length = frames.length ∧
    (∀ i (h1 : i < frames.length) (h2 : i < qs.length),
      SteamPacket.parse env (frames.get ⟨i, h1⟩) = some (qs.get ⟨i, h2⟩)) := by
  refine ⟨?_, parseAll_length env frames qs hok, parseAll_get env frames qs hok⟩
  simp only [SteamPacket.unpack_multi, hemsg, ne_eq, not_true_eq_false,
    if_false, hbody, ite_false]
  rw [hd]
  simp only [Option.bind_some, Option.some_bind]
  rw [henc, multiLoop_encodeFrames env frames hlen, hok]

/-- A concrete legacy sub-frame for the C7 witness. -/
def c7Frame : List Nat := le32enc 1303 ++ List.replicate 16 0

def c7Multi : CMsgMulti := ⟨0, encodeFrames [c7Frame]⟩

def c7Packet : SteamPacket :=
  ⟨1, true, true, PacketHeader.protoHdr [], PacketBody.multiMsg c7Multi⟩

def c7Parsed : SteamPacket :=
  ⟨1303, true, false, PacketHeader.legacy ⟨1303, 0, 0⟩, PacketBody.raw []⟩

/-- C7 witness: a one-frame uncompressed Multi unpacks to the parse of
its single sub-frame. -/
theorem C7_witness :
    SteamPacket.unpack_multi demoEnv c7Packet = some [c7Parsed] ∧
    ([c7Parsed] : List SteamPacket).length = ([c7Frame] : List (List Nat)).length ∧
    (∀ i (h1 : i < ([c7Frame] : List (List Nat)).length)
        (h2 : i < ([c7Parsed] : List SteamPacket).length),
      SteamPacket.parse demoEnv (([c7Frame] : List (List Nat)).get ⟨i, h1⟩) =
        some (([c7Parsed] : List SteamPacket).get ⟨i, h2⟩)) :=
  C7_unpack_multi_inorder demoEnv c7Packet c7Multi [c7Frame] [c7Parsed]
    (encodeFrames [c7Frame]) rfl rfl rfl rfl (by decide) rfl

/-! ## C6: the HMAC encrypt/decrypt round trip -/

theorem xorBytes_xorBytes (a : List Nat) :
    ∀ b, a.length = b.length → xorBytes a (xorBytes a b) = b := by
  induction a with
  | nil =>
    intro b h
    have : b = [] := List.eq_nil_of_length_eq_zero (by simpa using h.symm)
    subst this
    rfl
  | cons x xs ih =>
    intro b h
    cases b with
    | nil => simp at h
    | cons y ys =>
      simp only [xorBytes, List.zipWith_cons_cons] at *
      have hx : x.xor (x.xor y) = y := Nat.xor_cancel_left x y
      rw [hx, ih ys (by simp only [List.length_cons] at h; omega)]

theorem xorBytes_length (a b : List Nat) :
    (xorBytes a b).length = min a.length b.length := by
  simp [xorBytes]

theorem chunks16_nil : chunks16 [] = [] := by
  rw [chunks16]
  simp

theorem chunks16_append16 (b l : List Nat) (hb : b.length = 16) :
    chunks16 (b ++ l) = b :: chunks16 l := by
  rw [chunks16]
  rw [if_neg (by simp [hb])]
  rw [List.take_left' hb, List.drop_left' hb]

theorem chunks16_flatten : ∀ bs : List (List Nat),
    (∀ b ∈ bs, b.length = 16) → chunks16 bs.flatten = bs := by
  intro bs
  induction bs with
  | nil => intro _; simpa using chunks16_nil
  | cons b bs ih =>
    intro h
    rw [List.flatten_cons, chunks16_append16 b _ (h b (by simp)),
      ih (fun x hx => h x (by simp [hx]))]

theorem flatten_chunks16 : ∀ (n : Nat) (l : List Nat), l.length ≤ n →
    (chunks16 l).flatten = l := by
  intro n
  induction n with
  | zero =>
    intro l hl
    have : l = [] := List.eq_nil_of_length_eq_zero (by omega)
    subst this
    simp [chunks16_nil]
  | succ n ih =>
    intro l hl
    rw [chunks16]
    by_cases h0 : l.length = 0
    · simp only [h0, if_true, List.flatten_nil]
      exact (List.eq_nil_of_length_eq_zero h0).symm
    · rw [if_neg h0, List.flatten_cons, ih (l.drop 16) (by simp; omega)]
      exact List.take_append_drop 16 l

theorem chunks16_all16 : ∀ (n : Nat) (l : List Nat), l.length ≤ n →
    l.length % 16 = 0 → ∀ b ∈ chunks16 l, b.length = 16 := by
  intro n
  induction n with
  | zero =>
    intro l hl _ b hb
    have : l = [] := List.eq_nil_of_length_eq_zero (by omega)
    subst this
    rw [chunks16_nil] at hb
    exact absurd hb (by simp)
  | succ n ih =>
    intro l hl hm b hb
    rw [chunks16] at hb
    by_cases h0 : l.length = 0
    · rw [if_pos h0] at hb
      exact absurd hb (by simp)
    · rw [if_neg h0] at hb
      rcases List.mem_cons.mp hb with rfl | hb
      · simp only [List.length_take]
        omega
      · exact ih (l.drop 16) (by simp; omega) (by simp; omega) b hb

theorem cbcEncBlocks_all16 (E : List Nat → List Nat)
    (hE : ∀ b, b.length = 16 → (E b).length = 16) :
    ∀ bs iv, iv.length = 16 → (∀ b ∈ bs, b.length = 16) →
      ∀ c ∈ cbcEncBlocks E iv bs, c.length = 16 := by
  intro bs
  induction bs with
  | nil => intro iv _ _ c hc; exact absurd hc (by simp [cbcEncBlocks])
  | cons b bs ih =>
    intro iv hiv hall c hc
    have hb : b.length = 16 := hall b (by simp)
    have hxb : (xorBytes iv b).length = 16 := by
      rw [xorBytes_length, hiv, hb]; omega
    simp only [cbcEncBlocks, List.mem_cons] at hc
    rcases hc with rfl | hc
    · exact hE _ hxb
    · exact ih (E (xorBytes iv b)) (hE _ hxb) (fun x hx => hall x (by simp [hx])) c hc

theorem cbcDec_cbcEnc (E D : List Nat → List Nat)
    (hED : ∀ b, b.length = 16 → D (E b) = b)
    (hE : ∀ b, b.length = 16 → (E b).length = 16) :
    ∀ bs iv, iv.length = 16 → (∀ b ∈ bs, b.length = 16) →
      cbcDecBlocks D iv (cbcEncBlocks E iv bs) = bs := by
  intro bs
  induction bs with
  | nil => intro iv _ _; rfl
  | cons b bs ih =>
    intro iv hiv hall
    have hb : b.length = 16 := hall b (by simp)
    have hxb : (xorBytes iv b).length = 16 := by
      rw [xorBytes_length, hiv, hb]; omega
    simp only [cbcEncBlocks, cbcDecBlocks]
    rw [hED _ hxb, xorBytes_xorBytes iv b (by omega)]
    rw [ih (E (xorBytes iv b)) (hE _ hxb) (fun x hx => hall x (by simp [hx]))]

theorem unpad16_pad16 (m : List Nat) : unpad16 (pad16 m) = some m := by
  have hp1 : 1 ≤ 16 - m.length % 16 := by omega
  have hp16 : 16 - m.length % 16 ≤ 16 := by omega
  have hlen : (pad16 m).length = m.length + (16 - m.length % 16) := by
    simp [pad16]
  have hmod : ¬ ((pad16 m).length = 0 ∨ (pad16 m).length % 16 ≠ 0) := by
    rw [hlen]
    omega
  rw [unpad16, if_neg hmod]
  have hlast : (pad16 m).getLast? = some (16 - m.length % 16) := by
    rw [pad16, show 16 - m.length % 16 = (16 - m.length % 16 - 1) + 1 by omega,
      List.replicate_succ', ← List.append_assoc, List.getLast?_concat]
  rw [hlast]
  have hdropr : (pad16 m).drop ((pad16 m).length - (16 - m.length % 16)) =
      List.replicate (16 - m.length % 16) (16 - m.length % 16) := by
    rw [hlen, pad16, Nat.add_sub_cancel]
    exact List.drop_left' rfl
  have htaker : (pad16 m).take ((pad16 m).length - (16 - m.length % 16)) = m := by
    rw [hlen, pad16, Nat.add_sub_cancel]
    exact List.take_left' rfl
  show (if 1 ≤ 16 - m.length % 16 ∧ 16 - m.length % 16 ≤ 16 ∧
      List.drop ((pad16 m).length - (16 - m.length % 16)) (pad16 m) =
        List.replicate (16 - m.length % 16) (16 - m.length % 16) then
      some (List.take ((pad16 m).length - (16 - m.length % 16)) (pad16 m))
    else none) = some m
  rw [if_pos ⟨hp1, hp16, hdropr⟩, htaker]

/-- C6: for every keyed AES block permutation (`E` with inverse `D` on
16-byte blocks, as PyCryptodome provides for any 32-byte key), every HMAC
function producing 20-byte digests, every plaintext, every HMAC secret
and every value of the 3 random prefix bytes, decrypting an
HMAC-encrypted message returns the plaintext without raising: the
HMAC-derived IV round-trips and the integrity check passes. -/
theorem C6_encrypt_decrypt_roundtrip (E D : List Nat → List Nat)
    (hmacF : List Nat → List Nat → List Nat)
    (hmac_secret m pfx : List Nat)
    (hED : ∀ b, b.length = 16 → D (E b) = b)
    (hE : ∀ b, b.length = 16 → (E b).length = 16)
    (hH : ∀ s d, (hmacF s d).length = 20)
    (hpfx : pfx.length = 3) :
    symmetric_decrypt_HMAC D hmacF
      (symmetric_encrypt_HMAC E hmacF m hmac_secret pfx) hmac_secret = some m := by
  have hhm : (hmacF hmac_secret (pfx ++ m)).length = 20 := hH _ _
  have htk13 : ((hmacF hmac_secret (pfx ++ m)).take 13).length = 13 := by
    simp [List.length_take]
    omega
  have hivlen : ((hmacF hmac_secret (pfx ++ m)).take 13 ++ pfx).length = 16 := by
    simp [htk13, hpfx]
  have hct : symmetric_encrypt_HMAC E hmacF m hmac_secret pfx =
      E ((hmacF hmac_secret (pfx ++ m)).take 13 ++ pfx) ++
        cbcEncrypt E ((hmacF hmac_secret (pfx ++ m)).take 13 ++ pfx) (pad16 m) := rfl
  have hpadmod : (pad16 m).length % 16 = 0 := by
    simp [pad16]
    omega
  have hblocks : ∀ b ∈ chunks16 (pad16 m), b.length = 16 :=
    chunks16_all16 (pad16 m).length (pad16 m) le_rfl hpadmod
  have hencall : ∀ c ∈ cbcEncBlocks E ((hmacF hmac_secret (pfx ++ m)).take 13 ++ pfx)
      (chunks16 (pad16 m)), c.length = 16 :=
    cbcEncBlocks_all16 E hE _ _ hivlen hblocks
  have hEiv : (E ((hmacF hmac_secret (pfx ++ m)).take 13 ++ pfx)).length = 16 :=
    hE _ hivlen
  have hcbc : cbcDecrypt D ((hmacF hmac_secret (pfx ++ m)).take 13 ++ pfx)
      (cbcEncrypt E ((hmacF hmac_secret (pfx ++ m)).take 13 ++ pfx) (pad16 m)) =
      pad16 m := by
    rw [cbcDecrypt, cbcEncrypt,
      chunks16_flatten _ hencall,
      cbcDec_cbcEnc E D hED hE _ _ hivlen hblocks]
    exact flatten_chunks16 (pad16 m).length (pad16 m) le_rfl
  have hdrop3 : ((hmacF hmac_secret (pfx ++ m)).take 13 ++ pfx).drop
      (((hmacF hmac_secret (pfx ++ m)).take 13 ++ pfx).length - 3) = pfx := by
    rw [hivlen]
    exact List.drop_left' htk13
  have hDEiv := hED _ hivlen
  simp only [symmetric_decrypt_HMAC, symmetric_decrypt_iv,
    symmetric_decrypt_with_iv, hct, List.take_left' hEiv,
    List.drop_left' hEiv, hDEiv]
  rw [hcbc, unpad16_pad16 m]
  simp only [hdrop3]
  rw [if_pos (List.take_left' htk13)]

/-- C6 witness: a concrete round trip with the identity block cipher and
a constant 20-byte digest function. -/
theorem C6_witness :
    symmetric_decrypt_HMAC (fun b => b) (fun _ _ => List.replicate 20 7)
      (symmetric_encrypt_HMAC (fun b => b) (fun _ _ => List.replicate 20 7)
        [1, 2, 3] [9] [0, 0, 0]) [9] = some [1, 2, 3] :=
  C6_encrypt_decrypt_roundtrip (fun b => b) (fun b => b)
    (fun _ _ => List.replicate 20 7) [9] [1, 2, 3] [0, 0, 0]
    (fun _ _ => rfl) (fun _ h => h) (fun _ _ => by simp) rfl

end Steam
